import Mathlib

/-!
Shallow embedding of the prompt renderer (`src/main.rs`) and verification of
the specification claims about it.

Rust `String`/`&str` values are modelled as `List Char` (`Str`).  Rust's byte
indexing (`&s[..k]`) is modelled faithfully through UTF-8 byte sizes of the
characters: a byte slice succeeds exactly when the index is in range and on a
character boundary, and a failing slice is a panic, modelled as `none`.
Filesystem and environment access are modelled as explicit inputs (`FS`,
`Env`); `fs::read_to_string` errors carry the displayed message of the
underlying I/O error (`IoErr`).
-/

/-- Rust strings, as lists of characters. -/
abbrev Str := List Char

/-- Literal helper: a Lean string literal as a `Str`. -/
def str (s : String) : Str := s.data

/-- UTF-8 byte length of a string (Rust `str::len`). -/
def byteLen (s : Str) : Nat := (s.map Char.utf8Size).sum

/-- `byteSlice n s` models Rust `&s[..n]`: the characters making up the first
`n` bytes, or `none` (a panic) when `n` is out of range or not on a character
boundary. -/
def byteSlice : Nat → Str → Option Str
  | 0, _ => some []
  | _ + 1, [] => none
  | n + 1, c :: rest =>
    if c.utf8Size ≤ n + 1 then (byteSlice (n + 1 - c.utf8Size) rest).map (c :: ·)
    else none

/-- `byteSplit n s` models taking both `&s[..n]` and `&s[n..]`. -/
def byteSplit : Nat → Str → Option (Str × Str)
  | 0, s => some ([], s)
  | _ + 1, [] => none
  | n + 1, c :: rest =>
    if c.utf8Size ≤ n + 1 then
      (byteSplit (n + 1 - c.utf8Size) rest).map (fun p => (c :: p.1, p.2))
    else none

/-- Rust `str::trim` (whitespace stripped from both ends). -/
def rustTrim (s : Str) : Str :=
  ((s.dropWhile Char.isWhitespace).reverse.dropWhile Char.isWhitespace).reverse

/-- Rust `str::strip_prefix` (written here without the underscore name). -/
def stripPre : Str → Str → Option Str
  | [], s => some s
  | _ :: _, [] => none
  | p :: ps, c :: cs => if p = c then stripPre ps cs else none

/-- Split a string on a separator character, Rust `str::split(sep)` semantics:
the result is always non-empty and adjacent separators yield empty pieces. -/
def splitOnChar (sep : Char) : Str → List Str
  | [] => [[]]
  | c :: rest =>
    if c = sep then [] :: splitOnChar sep rest
    else
      match splitOnChar sep rest with
      | [] => [[c]]
      | p :: ps => (c :: p) :: ps

/-- Join pieces with a separator character, Rust `[String]::join`. -/
def joinChar (sep : Char) : List Str → Str
  | [] => []
  | [p] => p
  | p :: q :: ps => p ++ sep :: joinChar sep (q :: ps)

/-- Value of a hexadecimal digit (Rust `char::to_digit(16)`). -/
def hexDigVal (c : Char) : Option Nat :=
  if '0' ≤ c ∧ c ≤ '9' then some (c.toNat - '0'.toNat)
  else if 'a' ≤ c ∧ c ≤ 'f' then some (c.toNat - 'a'.toNat + 10)
  else if 'A' ≤ c ∧ c ≤ 'F' then some (c.toNat - 'A'.toNat + 10)
  else none

/-- Digits-only part of `u8::from_str_radix(_, 16)`. -/
def hexDigitsVal : Str → Option Nat
  | [] => none
  | ds => ds.foldlM (fun acc c => (hexDigVal c).map (fun v => acc * 16 + v)) 0

/-- Rust `u8::from_str_radix(s, 16)` as used on the two-byte slices of a hex
color: an optional leading `+` sign followed by hex digits.  (On two-digit
input the `u8` overflow case cannot arise.) -/
def fromStrRadix16 : Str → Option Nat
  | '+' :: rest => hexDigitsVal rest
  | s => hexDigitsVal s

/-- Decimal rendering of a natural number (for `format!` of the RGB bytes). -/
def natToStr (n : Nat) : Str := (Nat.repr n).data

/-- ANSI colors of the source (`enum Color`). -/
inductive Color where
  | Red | Green | Yellow | Blue | Magenta | Cyan | White | Black
  | BrightRed | BrightGreen | BrightYellow | BrightBlue
  | BrightMagenta | BrightCyan | BrightWhite | BrightBlack
  | Rgb (r g b : Nat)
  | Hex (h : Str)
deriving DecidableEq

namespace Color

/-- `Color::hex_to_rgb`.  `trim_start_matches('#')` strips every leading `#`;
the length test is on the UTF-8 byte length; the three two-byte slices are
byte slices that panic (`none`) off character boundaries; each component
falls back to `255` on its own parse failure. -/
def hex_to_rgb (hex : Str) : Option (Nat × Nat × Nat) :=
  let hex := hex.dropWhile (· = '#')
  if byteLen hex ≠ 6 then some (255, 255, 255)
  else
    match byteSplit 2 hex with
    | none => none
    | some (p1, r1) =>
      match byteSplit 2 r1 with
      | none => none
      | some (p2, r2) =>
        match byteSplit 2 r2 with
        | none => none
        | some (p3, _) =>
          some ((fromStrRadix16 p1).getD 255,
                (fromStrRadix16 p2).getD 255,
                (fromStrRadix16 p3).getD 255)

/-- `Color::to_ansi` (foreground escape parameter); `none` is the panic of a
hex byte slice off a character boundary. -/
def to_ansi : Color → Option Str
  | Black => some (str "30")
  | Red => some (str "31")
  | Green => some (str "32")
  | Yellow => some (str "33")
  | Blue => some (str "34")
  | Magenta => some (str "35")
  | Cyan => some (str "36")
  | White => some (str "37")
  | BrightBlack => some (str "90")
  | BrightRed => some (str "91")
  | BrightGreen => some (str "92")
  | BrightYellow => some (str "93")
  | BrightBlue => some (str "94")
  | BrightMagenta => some (str "95")
  | BrightCyan => some (str "96")
  | BrightWhite => some (str "97")
  | Rgb r g b =>
    some (str "38;2;" ++ natToStr r ++ str ";" ++ natToStr g ++ str ";" ++ natToStr b)
  | Hex h =>
    (hex_to_rgb h).map fun p =>
      str "38;2;" ++ natToStr p.1 ++ str ";" ++ natToStr p.2.1 ++ str ";" ++ natToStr p.2.2

/-- `Color::to_ansi_bg` (background escape parameter). -/
def to_ansi_bg : Color → Option Str
  | Black => some (str "40")
  | Red => some (str "41")
  | Green => some (str "42")
  | Yellow => some (str "43")
  | Blue => some (str "44")
  | Magenta => some (str "45")
  | Cyan => some (str "46")
  | White => some (str "47")
  | BrightBlack => some (str "100")
  | BrightRed => some (str "101")
  | BrightGreen => some (str "102")
  | BrightYellow => some (str "103")
  | BrightBlue => some (str "104")
  | BrightMagenta => some (str "105")
  | BrightCyan => some (str "106")
  | BrightWhite => some (str "107")
  | Rgb r g b =>
    some (str "48;2;" ++ natToStr r ++ str ";" ++ natToStr g ++ str ";" ++ natToStr b)
  | Hex h =>
    (hex_to_rgb h).map fun p =>
      str "48;2;" ++ natToStr p.1 ++ str ";" ++ natToStr p.2.1 ++ str ";" ++ natToStr p.2.2

end Color

/-- The styled-text tree of the source (`enum DecoratedString`). -/
inductive DecoratedString where
  | Bold (inner : DecoratedString)
  | Colored (inner : DecoratedString) (c : Color)
  | Background (inner : DecoratedString) (c : Color)
  | Underlined (inner : DecoratedString)
  | Italic (inner : DecoratedString)
  | Default (s : Str)
deriving DecidableEq

namespace DecoratedString

/-- `DecoratedString::to_ansi` (via `append_to_ansi`): recursive render.  The
wrapper start code is escaped and emitted before the child, the end code
after; leaf text passes through verbatim.  A panic inside a hex color is
`none` (in the source the color code of a wrapper is computed before the
child is rendered). -/
def to_ansi : DecoratedString → (Str → Str) → Option Str
  | Bold inner, esc =>
    (to_ansi inner esc).map fun r => esc (str "\x1b[1m") ++ r ++ esc (str "\x1b[22m")
  | Colored inner c, esc =>
    match c.to_ansi with
    | none => none
    | some code =>
      (to_ansi inner esc).map fun r =>
        esc (str "\x1b[" ++ code ++ str "m") ++ r ++ esc (str "\x1b[39m")
  | Background inner c, esc =>
    match c.to_ansi_bg with
    | none => none
    | some code =>
      (to_ansi inner esc).map fun r =>
        esc (str "\x1b[" ++ code ++ str "m") ++ r ++ esc (str "\x1b[49m")
  | Underlined inner, esc =>
    (to_ansi inner esc).map fun r => esc (str "\x1b[4m") ++ r ++ esc (str "\x1b[24m")
  | Italic inner, esc =>
    (to_ansi inner esc).map fun r => esc (str "\x1b[3m") ++ r ++ esc (str "\x1b[23m")
  | Default s, _ => some s

end DecoratedString

/-! ## Environment and filesystem model -/

/-- The process environment: an association list of variable names to values.
`env::var` misses are `none`. -/
abbrev Env := List (Str × Str)

/-- `env::var` lookup. -/
def lookupVar : Env → Str → Option Str
  | [], _ => none
  | (k, v) :: rest, key => if k = key then some v else lookupVar rest key

/-- Helper of `replaceAll` for a non-empty pattern: replace every
non-overlapping occurrence, scanning left to right. -/
def replaceGo (pat rep : Str) : Str → Str
  | [] => []
  | c :: rest =>
    if pat.isPrefixOf (c :: rest) then
      rep ++ replaceGo pat rep (List.drop (pat.length - 1) rest)
    else c :: replaceGo pat rep rest
termination_by s => s.length
decreasing_by
  · simp only [List.length_drop, List.length_cons]; omega
  · simp

/-- Rust `String::replace(pat, to)`: all non-overlapping occurrences, and for
the empty pattern a copy of `to` at every character boundary. -/
def replaceAll (s pat rep : Str) : Str :=
  if pat = [] then rep ++ s.foldr (fun c acc => c :: (rep ++ acc)) []
  else replaceGo pat rep s

/-- The abbreviation step of `get_cwd`: split the displayed directory on `/`,
abbreviate every component that differs from the last one, is non-empty and
is not `~` to its first character, and join back with `/`. -/
def shortenCwd (s : Str) : Str :=
  let parts := splitOnChar '/' s
  let lst := parts.getLast?.getD []
  joinChar '/' (parts.map fun dir =>
    if dir ≠ lst ∧ dir ≠ [] ∧ dir ≠ str "~" then [dir.headD '?'] else dir)

/-- `get_cwd`: the working-directory probe.  A missing `PWD` yields the bold
red `!!!` marker; otherwise the home prefix is substituted (via Rust
`String::replace`, which replaces every occurrence) and the path is
abbreviated. -/
def get_cwd (e : Env) : DecoratedString :=
  match lookupVar e (str "PWD") with
  | none => .Colored (.Bold (.Default (str "!!!"))) .Red
  | some pwd =>
    let cwd :=
      match lookupVar e (str "HOME") with
      | some home => if home.isPrefixOf pwd then replaceAll pwd home (str "~") else pwd
      | none => pwd
    .Colored (.Bold (.Default (shortenCwd cwd))) .White

/-! ## Nix-shell probe -/

/-- The `NotInNixShell` error of the source. -/
inductive NotInNixShell | mk
deriving DecidableEq

/-- `NixShellType`. -/
inductive NixShellType | Pure | Impure | Unknown
deriving DecidableEq

/-- The non-empty `/`-separated components of a path string (Rust `Path`
components, empty pieces skipped). -/
def relComps (s : Str) : List Str := (splitOnChar '/' s).filter (· ≠ [])

/-- A Rust `Path` parsed from a string into components; an absolute path is
marked by a leading empty component (the root). -/
def parsePath (s : Str) : List Str :=
  if s.head? = some '/' then [] :: relComps s else relComps s

/-- `NixShellType::detect_shell_type`: the `IN_NIX_SHELL` value decides when
present; otherwise any `PATH` entry that starts (component-wise) with
`/nix/store` means an unknown-type nix shell. -/
def detect_shell_type (e : Env) : Except NotInNixShell NixShellType :=
  match lookupVar e (str "IN_NIX_SHELL") with
  | some v =>
    if v = str "pure" then .ok .Pure
    else if v = str "impure" then .ok .Impure
    else .ok .Unknown
  | none =>
    match lookupVar e (str "PATH") with
    | none => .error .mk
    | some path =>
      if (splitOnChar ':' path).any
          (fun p => (parsePath (str "/nix/store")).isPrefixOf (parsePath p)) then
        .ok .Unknown
      else .error .mk

/-- Display name of a nix shell type. -/
def nixTypeName : NixShellType → Str
  | .Pure => str "pure"
  | .Impure => str "impure"
  | .Unknown => str "unknown"

/-- `get_nix_shell`. -/
def get_nix_shell (e : Env) : Except NotInNixShell DecoratedString :=
  match detect_shell_type e with
  | .error err => .error err
  | .ok t =>
    .ok (.Colored (.Bold (.Default (str "(nix: " ++ nixTypeName t ++ str ")")))
          (.Hex (str "#E06C76")))

/-! ## Git probe -/

/-- An I/O error, identified with its displayed message (the cause shown in
the debug output; `io::Error` sources are not modelled further). -/
abbrev IoErr := Str

/-- `GitError` of the source. -/
inductive GitError where
  | NoCwd (e : IoErr)
  | CanonicalCwd (e : IoErr)
  | ReadGitFile (e : IoErr)
  | ReadHead (e : IoErr)
  | NotGitRepo
  | UnexpectedGitContent
  | ReadRef (e : IoErr)
  | NoRefName
deriving DecidableEq

deriving instance DecidableEq for Except

/-- A filesystem snapshot, keyed by paths as component lists (an absolute
path starts with the empty root component). -/
structure FS where
  pexists : List Str → Bool
  isFile : List Str → Bool
  readToString : List Str → Except IoErr Str

/-- Rust `Path::parent` on component lists: the root and the empty path have
no parent; a single relative component's parent is the empty path. -/
def parentDir : List Str → Option (List Str)
  | [] => none
  | [c] => if c = ([] : Str) then none else some []
  | a :: b :: rest => some ((a :: b :: rest).dropLast)

/-- The ancestor chain in reversed-component form: `ancesChainAux r` is the
list of directories (in forward form) examined when walking up from the
directory whose reversed component list is `r`.  Structured this way the
recursion is structural, so it evaluates. -/
def ancesChainAux : List Str → List (List Str)
  | [] => [[]]
  | [c] => if c = ([] : Str) then [[c]] else [[c], []]
  | c :: d :: rest => (c :: d :: rest).reverse :: ancesChainAux (d :: rest)

/-- The chain of directories examined by the upward walk of `get_git_info`:
the start directory followed by its successive parents, up to the root. -/
def ancesChain (l : List Str) : List (List Str) := ancesChainAux l.reverse

/-- The upward walk in reversed-component form (see `ancesChainAux`). -/
def findRepoAux (fs : FS) : List Str → Option (List Str)
  | [] => if fs.pexists ([] ++ [str ".git"]) then some [] else none
  | [c] =>
    if fs.pexists ([c] ++ [str ".git"]) then some [c]
    else if c = ([] : Str) then none
    else findRepoAux fs []
  | c :: d :: rest =>
    if fs.pexists ((c :: d :: rest).reverse ++ [str ".git"]) then
      some (c :: d :: rest).reverse
    else findRepoAux fs (d :: rest)

/-- The upward walk of `get_git_info`: stop at the first directory whose
`.git` entry exists; `none` once the root's parent is reached. -/
def findRepo (fs : FS) (l : List Str) : Option (List Str) := findRepoAux fs l.reverse

/-- Rust `Path::join` on the component model: an absolute right operand
replaces the base. -/
def pathJoin (base : List Str) (s : Str) : List Str :=
  if s.head? = some '/' then parsePath s else base ++ relComps s

/-- Rust `Path::file_name`: the last component, unless it is `..` or there is
none. -/
def fileName (s : Str) : Option Str :=
  match (relComps s).getLast? with
  | none => none
  | some c => if c = str ".." then none else some c

/-- Marker-resolution step of `get_git_info`: a directory `.git` is the
metadata directory itself; a file `.git` must contain `gitdir: <path>`, whose
trimmed remainder is parsed as the metadata directory path. -/
def resolveGitDir (fs : FS) (repo : List Str) : Except GitError (List Str) :=
  let gd := repo ++ [str ".git"]
  if fs.isFile gd then
    match fs.readToString gd with
    | .error e => .error (.ReadGitFile e)
    | .ok content =>
      match stripPre (str "gitdir: ") content with
      | some v => .ok (parsePath (rustTrim v))
      | none => .error .UnexpectedGitContent
  else .ok gd

/-- HEAD-and-reference step of `get_git_info`, producing the output text.
`none` is a panic of a byte slice (`&commit_hash[..5]`, `&head_content[..14]`).
The commit hash is used untrimmed: its first 5 bytes are the short hash and
the `..` marker depends on its full character count. -/
def headResolve (fs : FS) (gitDir : List Str) : Option (Except GitError Str) :=
  match fs.readToString (gitDir ++ [str "HEAD"]) with
  | .error e => some (.error (.ReadHead e))
  | .ok headContent =>
    match stripPre (str "ref: ") headContent with
    | some refsRaw =>
      let refsPathStr := rustTrim refsRaw
      match fs.readToString (pathJoin gitDir refsPathStr) with
      | .error e => some (.error (.ReadRef e))
      | .ok commitHash =>
        match byteSlice 5 commitHash with
        | none => none
        | some shortHash =>
          match fileName refsPathStr with
          | none => some (.error .NoRefName)
          | some refName =>
            let ext := if 5 < commitHash.length then str ".." else []
            some (.ok (str "(" ++ refName ++ str " " ++ shortHash ++ ext ++ str ")"))
    | none =>
      match byteSlice 14 headContent with
      | none => none
      | some s => some (.ok s)

/-- The styling `get_git_info` applies to its output text. -/
def gitDeco (t : Str) : DecoratedString :=
  .Colored (.Bold (.Default t)) (.Hex (str "#98BFAE"))

/-- Decoration of the head-resolution outcome. -/
def decoStep : Option (Except GitError Str) → Option (Except GitError DecoratedString)
  | none => none
  | some (.error e) => some (.error e)
  | some (.ok out) => some (.ok (gitDeco out))

/-- `get_git_info` after the repository root has been found. -/
def afterRepo (fs : FS) (repo : List Str) : Option (Except GitError DecoratedString) :=
  match resolveGitDir fs repo with
  | .error e => some (.error e)
  | .ok gd => decoStep (headResolve fs gd)

/-- `get_git_info`, from the canonicalized current directory on (obtaining
and canonicalizing the current directory is I/O glue outside the core; its
failures `NoCwd`/`CanonicalCwd` precede everything modelled here).  `none` is
a panic. -/
def get_git_info (fs : FS) (canonCwd : List Str) :
    Option (Except GitError DecoratedString) :=
  match findRepo fs canonCwd with
  | none => some (.error .NotGitRepo)
  | some repo => afterRepo fs repo

/-! ## Assembler (`main`) -/

/-- `Display for GitError`: the message line. -/
def gitErrorMsg : GitError → Str
  | .NoCwd _ => str "failed to get cwd"
  | .CanonicalCwd _ => str "failed to canonicalize cwd"
  | .ReadGitFile _ => str "failed to read .git file"
  | .ReadHead _ => str "failed to read git HEAD"
  | .NotGitRepo => str "not a git repo"
  | .UnexpectedGitContent => str "unexpected git content"
  | .ReadRef _ => str "failed to read ref"
  | .NoRefName => str "failed to get ref name"

/-- `Error::source for GitError`: the wrapped I/O cause, when any. -/
def gitErrorSource : GitError → Option IoErr
  | .NoCwd e => some e
  | .CanonicalCwd e => some e
  | .ReadGitFile e => some e
  | .ReadHead e => some e
  | .NotGitRepo => none
  | .UnexpectedGitContent => none
  | .ReadRef e => some e
  | .NoRefName => none

/-- `MainError` of the source. -/
inductive MainError where
  | NixShell (e : NotInNixShell)
  | Git (e : GitError)
deriving DecidableEq

/-- `Display for MainError`: the header line, then `Caused by:` and the whole
cause chain, one line each (an I/O cause displays as its message and has no
further source in this model). -/
def displayMainError : MainError → Str
  | .NixShell _ =>
    str "failed to get nix info\n" ++ str "Caused by:\n" ++ str "not in a nix shell\n"
  | .Git g =>
    str "failed to get git info\n" ++ str "Caused by:\n" ++ gitErrorMsg g ++ str "\n" ++
      (match gitErrorSource g with
       | some cause => cause ++ str "\n"
       | none => [])

/-- What one run prints: the prompt line on standard output and the debug
text on standard error. -/
structure RunOut where
  stdout : Str
  stderrOut : Str
deriving DecidableEq

/-- Concatenation of a list of strings (`join("")`). -/
def concatStrs (l : List Str) : Str := l.foldr (· ++ ·) []

/-- The `escape_ansi` closure of `main`: zsh and bash wrap each escape
sequence in their invisible-width markers, anything else passes through. -/
def escapeFor (shellType : Str) (s : Str) : Str :=
  if shellType = str "zsh" then str "%\x7b" ++ s ++ str "%\x7d"
  else if shellType = str "bash" then str "\\[" ++ s ++ str "\\]"
  else s

/-- `Result::is_ok`. -/
def exOk {ε α : Type} : Except ε α → Bool
  | .ok _ => true
  | .error _ => false

/-- `Result::map_err`. -/
def exMapErr {ε ε2 α : Type} (f : ε → ε2) : Except ε α → Except ε2 α
  | .ok v => .ok v
  | .error e => .error (f e)

/-- `Result::ok`. -/
def okVal {ε α : Type} : Except ε α → Option α
  | .ok v => some v
  | .error _ => none

/-- The probe result vector of `main`, in source order, given the git probe's
outcome: working directory (never an error), git, nix. -/
def probeResults (e : Env) (g : Except GitError DecoratedString) :
    List (Except MainError DecoratedString) :=
  [.ok (get_cwd e), exMapErr .Git g, exMapErr .NixShell (get_nix_shell e)]

/-- One debug line as printed by `eprintln!("{error}")` (the display plus the
trailing newline of `eprintln`). -/
def errLine : Except MainError DecoratedString → Str
  | .error err => displayMainError err ++ str "\n"
  | .ok _ => []

/-- Rendering of the successful components; `none` if any render panics. -/
def renderOks (shellType : Str) (comps : List DecoratedString) : Option (List Str) :=
  comps.mapM (fun d => d.to_ansi (escapeFor shellType))

/-- `main`.  The `expect` on `PROMPT_SHELL_TYPE` is a panic (`none`) when the
variable is absent; a panic inside the git probe propagates.  The probe
results are partitioned into successes and failures; only the successes are
rendered and joined (the `expect` on the partitioned successes cannot fail
and is the `okVal` projection); the failures are printed to standard error
exactly when `PROMPT_DEBUG` is `1`. -/
def mainRun (e : Env) (fs : FS) (canonCwd : List Str) : Option RunOut :=
  match lookupVar e (str "PROMPT_SHELL_TYPE") with
  | none => none
  | some shellType =>
    match get_git_info fs canonCwd with
    | none => none
    | some g =>
      let results := probeResults e g
      let oks := results.filter exOk
      let errs := results.filter (fun r => ! exOk r)
      let components := oks.filterMap okVal
      let errOut :=
        if lookupVar e (str "PROMPT_DEBUG") = some (str "1") then
          concatStrs (errs.map errLine)
        else []
      match renderOks shellType components with
      | none => none
      | some rendered =>
        some ⟨str " " ++ concatStrs (rendered.map (· ++ str " ")) ++ str "-> ", errOut⟩

/-! ## Concrete inputs used by counterexamples and witnesses -/

/-- Concrete filesystem for the C7 witness: the marker `/r/.git` is a file
containing `gitdir: /some/path`. -/
def c7fs : FS where
  pexists := fun p => decide (p = [str "", str "r", str ".git"])
  isFile := fun p => decide (p = [str "", str "r", str ".git"])
  readToString := fun p =>
    if p = [str "", str "r", str ".git"] then .ok (str "gitdir: /some/path")
    else .error (str "missing")

/-- Concrete filesystem for C2: a directory marker, `HEAD` pointing at
`refs/heads/main`, and a reference file whose content is the five-character
id `abcde` followed by a newline. -/
def c2fs : FS where
  pexists := fun p => decide (p = [str "", str "r", str ".git"])
  isFile := fun _ => false
  readToString := fun p =>
    if p = [str "", str "r", str ".git", str "HEAD"] then
      .ok (str "ref: refs/heads/main\n")
    else if p = [str "", str "r", str ".git", str "refs", str "heads", str "main"] then
      .ok (str "abcde\n")
    else .error (str "missing")

/-- Concrete filesystem for C3: `HEAD` holds the three-byte content `abc`
and does not start with `ref: `. -/
def c3fs : FS where
  pexists := fun p => decide (p = [str "", str "r", str ".git"])
  isFile := fun _ => false
  readToString := fun p =>
    if p = [str "", str "r", str ".git", str "HEAD"] then .ok (str "abc")
    else .error (str "missing")

/-- A filesystem with nothing in it. -/
def c1fs : FS where
  pexists := fun _ => false
  isFile := fun _ => false
  readToString := fun _ => .error (str "io failure")

/-- Environment for the C1 witness: shell type set, debug enabled. -/
def c1env : Env := [(str "PROMPT_SHELL_TYPE", str "zsh"), (str "PROMPT_DEBUG", str "1")]

/-! ## Claims -/

/-- C4 counterexample: `hex("zz0000")` resolves to `(255,0,0)` — the invalid
first component falls back to 255 on its own, it does not force the whole
fallback triple `(255,255,255)` the claim states. -/
theorem c4_counterexample :
    Color.hex_to_rgb (str "zz0000") = some (255, 0, 0) ∧
    Color.hex_to_rgb (str "zz0000") ≠ some (255, 255, 255) := by
  decide

/-- C4 (amended): parsing strips every leading `#`; when the remaining byte
length is not 6 the whole fallback triple `(255,255,255)` is returned;
otherwise (for six one-byte characters) each two-character component is
parsed independently, an invalid component falling back to `255` by itself;
`hex("zzzzzz") = (255,255,255)`, `hex("abc") = (255,255,255)` and
`hex("#00ff00") = (0,255,0)` as the claim's examples state. -/
theorem c4_amended :
    (∀ s : Str, byteLen (s.dropWhile (· = '#')) ≠ 6 →
      Color.hex_to_rgb s = some (255, 255, 255)) ∧
    (∀ s t : Str, s.dropWhile (· = '#') = t → t.length = 6 →
      (∀ c ∈ t, c.utf8Size = 1) →
      Color.hex_to_rgb s =
        some ((fromStrRadix16 (t.take 2)).getD 255,
              (fromStrRadix16 ((t.drop 2).take 2)).getD 255,
              (fromStrRadix16 (t.drop 4)).getD 255)) ∧
    Color.hex_to_rgb (str "zzzzzz") = some (255, 255, 255) ∧
    Color.hex_to_rgb (str "abc") = some (255, 255, 255) ∧
    Color.hex_to_rgb (str "#00ff00") = some (0, 255, 0) := by
  refine ⟨?_, ?_, by decide, by decide, by decide⟩
  · intro s h
    simp only [Color.hex_to_rgb]
    rw [if_pos h]
  · intro s t hdrop hlen hsz
    rcases t with _ | ⟨c1, t⟩
    · exact absurd hlen (by simp)
    rcases t with _ | ⟨c2, t⟩
    · exact absurd hlen (by simp)
    rcases t with _ | ⟨c3, t⟩
    · exact absurd hlen (by simp)
    rcases t with _ | ⟨c4, t⟩
    · exact absurd hlen (by simp)
    rcases t with _ | ⟨c5, t⟩
    · exact absurd hlen (by simp)
    rcases t with _ | ⟨c6, t⟩
    · exact absurd hlen (by simp)
    rcases t with _ | ⟨c7, t⟩
    case cons =>
      exfalso
      simp only [List.length_cons] at hlen
      omega
    have h1 := hsz c1 (by simp)
    have h2 := hsz c2 (by simp)
    have h3 := hsz c3 (by simp)
    have h4 := hsz c4 (by simp)
    have h5 := hsz c5 (by simp)
    have h6 := hsz c6 (by simp)
    simp [Color.hex_to_rgb, hdrop, byteLen, h1, h2, h3, h4, h5, h6, byteSplit]

/-- C9: the working-directory probe cannot fail: when `PWD` is absent,
`get_cwd` returns the literal `!!!` styled bold and colored red instead of
propagating an error (and it is a total function of the environment). -/
theorem c9_cwd_fallback :
    ∀ e : Env, lookupVar e (str "PWD") = none →
      get_cwd e =
        DecoratedString.Colored (DecoratedString.Bold (DecoratedString.Default (str "!!!")))
          Color.Red := by
  intro e h
  simp [get_cwd, h]

/-- C9 witness: the empty environment. -/
theorem c9_witness :
    get_cwd [] =
      DecoratedString.Colored (DecoratedString.Bold (DecoratedString.Default (str "!!!")))
        Color.Red :=
  c9_cwd_fallback [] rfl

/-- C4 witness: a wrong-length input falls back to white and a valid six-digit
input parses component-wise. -/
theorem c4_amended_witness :
    Color.hex_to_rgb (str "ab") = some (255, 255, 255) ∧
    Color.hex_to_rgb (str "#a0b1c2") =
      some ((fromStrRadix16 ((str "a0b1c2").take 2)).getD 255,
            (fromStrRadix16 (((str "a0b1c2").drop 2).take 2)).getD 255,
            (fromStrRadix16 ((str "a0b1c2").drop 4)).getD 255) :=
  ⟨c4_amended.1 (str "ab") (by decide),
   c4_amended.2.1 (str "#a0b1c2") (str "a0b1c2") (by decide) (by decide) (by decide)⟩

/-- C5 (code bug): `hex_to_rgb` is not total — on the six-byte input `aéabc`
the byte slice `&hex[0..2]` falls inside the two-byte character `é` and the
function panics instead of returning the documented white fallback. -/
theorem c5_code_bug_eval :
    Color.hex_to_rgb (str "aéabc") = none := by
  decide

/-- C6: rendering emits each wrapper's escaped start code before the child's
output and its escaped end code after it (outside-in/inside-out, properly
nested), appends leaf text verbatim without applying the escape function,
and `bold(foreground(leaf("x"), Red))` renders to
`ESC[1mESC[31mxESC[39mESC[22m` under the identity escape. -/
theorem c6_render_nesting :
    (∀ (esc : Str → Str) (t : DecoratedString) (col : Color) (s : Str),
      DecoratedString.to_ansi (.Bold t) esc =
        (DecoratedString.to_ansi t esc).map
          (fun r => esc (str "\x1b[1m") ++ r ++ esc (str "\x1b[22m")) ∧
      DecoratedString.to_ansi (.Underlined t) esc =
        (DecoratedString.to_ansi t esc).map
          (fun r => esc (str "\x1b[4m") ++ r ++ esc (str "\x1b[24m")) ∧
      DecoratedString.to_ansi (.Italic t) esc =
        (DecoratedString.to_ansi t esc).map
          (fun r => esc (str "\x1b[3m") ++ r ++ esc (str "\x1b[23m")) ∧
      DecoratedString.to_ansi (.Colored t col) esc =
        (match col.to_ansi with
         | none => none
         | some code =>
           (DecoratedString.to_ansi t esc).map
             (fun r => esc (str "\x1b[" ++ code ++ str "m") ++ r ++ esc (str "\x1b[39m"))) ∧
      DecoratedString.to_ansi (.Background t col) esc =
        (match col.to_ansi_bg with
         | none => none
         | some code =>
           (DecoratedString.to_ansi t esc).map
             (fun r => esc (str "\x1b[" ++ code ++ str "m") ++ r ++ esc (str "\x1b[49m"))) ∧
      DecoratedString.to_ansi (.Default s) esc = some s) ∧
    DecoratedString.to_ansi
      (.Bold (.Colored (.Default (str "x")) Color.Red)) id =
      some (str "\x1b[1m\x1b[31mx\x1b[39m\x1b[22m") := by
  refine ⟨fun esc t col s => ⟨rfl, rfl, rfl, rfl, rfl, rfl⟩, by decide⟩

/-! ## Root search (C8) -/

theorem parentDir_eq_dropLast {l : List Str} (h : 2 ≤ l.length) :
    parentDir l = some l.dropLast := by
  match l with
  | [] => simp at h
  | [a] => simp at h
  | a :: b :: rest => rfl

theorem ancesChainAux_parent (r : List Str) :
    ancesChainAux r =
      r.reverse :: (match parentDir r.reverse with
                    | none => []
                    | some p => ancesChainAux p.reverse) := by
  match r with
  | [] => rfl
  | [c] =>
    by_cases hc : c = ([] : Str)
    · subst hc
      rfl
    · simp only [ancesChainAux, if_neg hc, List.reverse_cons, List.reverse_nil,
        List.nil_append, parentDir, List.reverse_singleton]
  | c :: d :: rest =>
    have hpar : parentDir ((c :: d :: rest).reverse) = some ((d :: rest).reverse) := by
      rw [parentDir_eq_dropLast (by simp)]
      simp [List.reverse_cons, List.dropLast_concat]
    show (c :: d :: rest).reverse :: ancesChainAux (d :: rest) = _
    rw [hpar]
    simp [List.reverse_reverse]

theorem ancesChain_parent (l : List Str) :
    ancesChain l =
      l :: (match parentDir l with
            | none => []
            | some p => ancesChain p) := by
  have h := ancesChainAux_parent l.reverse
  rw [List.reverse_reverse] at h
  unfold ancesChain
  rw [h]

theorem findRepoAux_eq (fs : FS) (r : List Str) :
    findRepoAux fs r =
      (ancesChainAux r).find? (fun d => fs.pexists (d ++ [str ".git"])) := by
  induction r with
  | nil =>
    simp only [findRepoAux, ancesChainAux, List.find?]
    cases hp : fs.pexists ([] ++ [str ".git"]) <;> simp [hp]
  | cons c rest ih =>
    cases rest with
    | nil =>
      by_cases hc : c = ([] : Str)
      · subst hc
        simp only [findRepoAux, ancesChainAux, if_pos rfl, List.find?]
        cases hp : fs.pexists ([([] : Str)] ++ [str ".git"]) <;> simp [hp]
      · simp only [findRepoAux, ancesChainAux, if_neg hc, List.find?]
        cases hp : fs.pexists ([c] ++ [str ".git"])
        · simp only [hp, cond_false, if_neg (by simp : ¬(false = true)), if_neg hc]
          cases hq : fs.pexists ([] ++ [str ".git"]) <;> simp [hq]
        · simp [hp]
    | cons d rest2 =>
      simp only [findRepoAux, ancesChainAux, List.find?]
      cases hp : fs.pexists ((c :: d :: rest2).reverse ++ [str ".git"]) <;>
        simp [hp, ih]

theorem findRepo_eq_find (fs : FS) (l : List Str) :
    findRepo fs l =
      (ancesChain l).find? (fun d => fs.pexists (d ++ [str ".git"])) := by
  unfold findRepo ancesChain
  exact findRepoAux_eq fs l.reverse

theorem resolveGitDir_error_ne {fs : FS} {repo : List Str} {e : GitError}
    (h : resolveGitDir fs repo = .error e) : e ≠ .NotGitRepo := by
  unfold resolveGitDir at h
  by_cases hf : fs.isFile (repo ++ [str ".git"])
  · rw [if_pos hf] at h
    cases hr : fs.readToString (repo ++ [str ".git"]) with
    | error e2 =>
      rw [hr] at h
      dsimp only at h
      simp only [Except.error.injEq] at h
      subst h
      simp
    | ok content =>
      rw [hr] at h
      dsimp only at h
      cases hs : stripPre (str "gitdir: ") content with
      | some v => rw [hs] at h; simp at h
      | none =>
        rw [hs] at h
        simp only [Except.error.injEq] at h
        subst h
        simp
  · rw [if_neg hf] at h
    simp at h

theorem headResolve_error_ne {fs : FS} {gd : List Str} {e : GitError}
    (h : headResolve fs gd = some (.error e)) : e ≠ .NotGitRepo := by
  unfold headResolve at h
  cases hr : fs.readToString (gd ++ [str "HEAD"]) with
  | error e2 =>
    rw [hr] at h
    dsimp only at h
    simp only [Option.some.injEq, Except.error.injEq] at h
    subst h
    simp
  | ok head =>
    rw [hr] at h
    dsimp only at h
    cases hs : stripPre (str "ref: ") head with
    | some raw =>
      rw [hs] at h
      dsimp only at h
      cases hrr : fs.readToString (pathJoin gd (rustTrim raw)) with
      | error e2 =>
        rw [hrr] at h
        dsimp only at h
        simp only [Option.some.injEq, Except.error.injEq] at h
        subst h
        simp
      | ok commitHash =>
        rw [hrr] at h
        dsimp only at h
        cases hb : byteSlice 5 commitHash with
        | none => rw [hb] at h; dsimp only at h; simp at h
        | some sh =>
          rw [hb] at h
          dsimp only at h
          cases hf : fileName (rustTrim raw) with
          | none =>
            rw [hf] at h
            dsimp only at h
            simp only [Option.some.injEq, Except.error.injEq] at h
            subst h
            simp
          | some rn => rw [hf] at h; dsimp only at h; simp at h
    | none =>
      rw [hs] at h
      dsimp only at h
      cases hb : byteSlice 14 head with
      | none => rw [hb] at h; dsimp only at h; simp at h
      | some s14 => rw [hb] at h; dsimp only at h; simp at h

theorem afterRepo_ne_notGitRepo (fs : FS) (repo : List Str) :
    afterRepo fs repo ≠ some (.error .NotGitRepo) := by
  unfold afterRepo
  cases hg : resolveGitDir fs repo with
  | error e =>
    have := resolveGitDir_error_ne hg
    simp [this]
  | ok gd =>
    dsimp only
    cases hh : headResolve fs gd with
    | none => simp [decoStep]
    | some r =>
      cases r with
      | ok v => simp [decoStep]
      | error e =>
        have := headResolve_error_ne hh
        simp [decoStep, this]

/-- C8: the root search starts at the canonicalized current directory and
examines it and then each successive ancestor (`ancesChain`, characterized
by `Path::parent`); it stops at the first directory whose `.git` marker
exists (`List.find?`); and `get_git_info` yields the `NotGitRepo` error
exactly when no directory in the whole chain — up to the filesystem root —
has the marker. -/
theorem c8_root_search :
    ∀ (fs : FS) (cwd : List Str),
      (ancesChain cwd =
        cwd :: (match parentDir cwd with
                | none => []
                | some p => ancesChain p)) ∧
      findRepo fs cwd =
        (ancesChain cwd).find? (fun d => fs.pexists (d ++ [str ".git"])) ∧
      (get_git_info fs cwd = some (.error .NotGitRepo) ↔
        ∀ d ∈ ancesChain cwd, fs.pexists (d ++ [str ".git"]) = false) := by
  intro fs cwd
  refine ⟨ancesChain_parent cwd, findRepo_eq_find fs cwd, ?_⟩
  constructor
  · intro h d hd
    unfold get_git_info at h
    cases hfr : findRepo fs cwd with
    | some repo =>
      rw [hfr] at h
      exact absurd h (afterRepo_ne_notGitRepo fs repo)
    | none =>
      have := findRepo_eq_find fs cwd
      rw [hfr] at this
      have hnone := (List.find?_eq_none.mp this.symm) d hd
      simpa using hnone
  · intro hall
    unfold get_git_info
    cases hfr : findRepo fs cwd with
    | none => rfl
    | some repo =>
      exfalso
      have := findRepo_eq_find fs cwd
      rw [hfr] at this
      have hmem := List.mem_of_find?_eq_some this.symm
      have hsat := List.find?_some this.symm
      rw [hall repo hmem] at hsat
      exact absurd hsat (by simp)

/-! ## Marker indirection (C7) and head resolution (C2, C3) -/

/-- C7: when the repository marker is a file, its content must begin with
`gitdir: `; then the prefix is stripped, the remainder trimmed, and the
resulting path (not the marker's parent) becomes the metadata directory used
for all further reads; any other content fails this probe with
`UnexpectedGitContent`. -/
theorem c7_marker_indirection :
    ∀ (fs : FS) (repo : List Str) (c : Str),
      fs.isFile (repo ++ [str ".git"]) = true →
      fs.readToString (repo ++ [str ".git"]) = .ok c →
      ((∀ v, stripPre (str "gitdir: ") c = some v →
          resolveGitDir fs repo = .ok (parsePath (rustTrim v)) ∧
          afterRepo fs repo = decoStep (headResolve fs (parsePath (rustTrim v)))) ∧
       (stripPre (str "gitdir: ") c = none →
          resolveGitDir fs repo = .error .UnexpectedGitContent ∧
          afterRepo fs repo = some (.error .UnexpectedGitContent))) := by
  intro fs repo c hf hr
  have hres : ∀ v, stripPre (str "gitdir: ") c = some v →
      resolveGitDir fs repo = .ok (parsePath (rustTrim v)) := by
    intro v hs
    unfold resolveGitDir
    rw [if_pos hf, hr]
    dsimp only
    rw [hs]
  constructor
  · intro v hs
    refine ⟨hres v hs, ?_⟩
    unfold afterRepo
    rw [hres v hs]
  · intro hs
    have hug : resolveGitDir fs repo = .error .UnexpectedGitContent := by
      unfold resolveGitDir
      rw [if_pos hf, hr]
      dsimp only
      rw [hs]
    refine ⟨hug, ?_⟩
    unfold afterRepo
    rw [hug]

/-- C7 witness: with marker content `gitdir: /some/path`, resolution uses
`/some/path` as the metadata directory. -/
theorem c7_witness :
    resolveGitDir c7fs [str "", str "r"] = .ok (parsePath (rustTrim (str "/some/path"))) ∧
    afterRepo c7fs [str "", str "r"] =
      decoStep (headResolve c7fs (parsePath (rustTrim (str "/some/path")))) :=
  (c7_marker_indirection c7fs [str "", str "r"] (str "gitdir: /some/path")
    (by decide) (by decide)).1 (str "/some/path") (by decide)

/-- Detached-head behavior of `headResolve`, shared helper. -/
theorem headResolve_detached (fs : FS) (gd : List Str) (head : Str)
    (h1 : fs.readToString (gd ++ [str "HEAD"]) = .ok head)
    (h2 : stripPre (str "ref: ") head = none) :
    headResolve fs gd =
      (match byteSlice 14 head with
       | none => none
       | some s => some (.ok s)) := by
  unfold headResolve
  rw [h1]
  dsimp only
  rw [h2]

/-- C2 (amended): when `HEAD` begins with `ref: ` and the reference file is
readable, the resolver takes the reference file's raw, untrimmed content as
the object-id string: the short hash is its first 5 bytes (the probe panics
when the content has fewer than 5 bytes or byte 5 is not a character
boundary), and the two-dot marker is appended exactly when the raw content —
trailing newline included — has more than 5 characters. -/
theorem c2_amended :
    (∀ (fs : FS) (gd : List Str) (head raw c sh rn : Str),
      fs.readToString (gd ++ [str "HEAD"]) = .ok head →
      stripPre (str "ref: ") head = some raw →
      fs.readToString (pathJoin gd (rustTrim raw)) = .ok c →
      byteSlice 5 c = some sh →
      fileName (rustTrim raw) = some rn →
      headResolve fs gd =
        some (.ok (str "(" ++ rn ++ str " " ++ sh ++
          (if 5 < c.length then str ".." else []) ++ str ")"))) ∧
    (∀ (fs : FS) (gd : List Str) (head raw c : Str),
      fs.readToString (gd ++ [str "HEAD"]) = .ok head →
      stripPre (str "ref: ") head = some raw →
      fs.readToString (pathJoin gd (rustTrim raw)) = .ok c →
      byteSlice 5 c = none →
      headResolve fs gd = none) := by
  constructor
  · intro fs gd head raw c sh rn h1 h2 h3 h4 h5
    unfold headResolve
    rw [h1]
    dsimp only
    rw [h2]
    dsimp only
    rw [h3]
    dsimp only
    rw [h4]
    dsimp only
    rw [h5]
  · intro fs gd head raw c h1 h2 h3 h4
    unfold headResolve
    rw [h1]
    dsimp only
    rw [h2]
    dsimp only
    rw [h3]
    dsimp only
    rw [h4]

/-- C2 counterexample: the trimmed reference-file content is the 5-character
id `abcde`, for which the claim says no truncation marker is appended — but
the code appends `..` because it counts the characters of the untrimmed
content (with the newline, 6 > 5). -/
theorem c2_counterexample :
    get_git_info c2fs [str "", str "r"] =
      some (.ok (gitDeco (str "(main abcde..)"))) ∧
    rustTrim (str "abcde\n") = str "abcde" ∧
    (rustTrim (str "abcde\n")).length ≤ 5 ∧
    get_git_info c2fs [str "", str "r"] ≠
      some (.ok (gitDeco (str "(main abcde)"))) := by
  refine ⟨rfl, by decide, by decide, by decide⟩

/-- C2 witness: the amended statement applied to the concrete filesystem. -/
theorem c2_amended_witness :
    headResolve c2fs [str "", str "r", str ".git"] =
      some (.ok (str "(" ++ str "main" ++ str " " ++ str "abcde" ++
        (if 5 < (str "abcde\n").length then str ".." else []) ++ str ")")) :=
  c2_amended.1 c2fs [str "", str "r", str ".git"] (str "ref: refs/heads/main\n")
    (str "refs/heads/main\n") (str "abcde\n") (str "abcde") (str "main")
    (by decide) (by decide) (by decide) (by decide) (by decide)

/-- C3 (amended): when `HEAD` does not start with `ref: `, no reference file
is read (the outcome depends only on the `HEAD` content, not on the rest of
the filesystem), and the probe panics unless the content has at least 14
bytes with a character boundary at byte 14, in which case exactly the first
14 bytes of the content are the display string. -/
theorem c3_amended :
    (∀ (fs fs2 : FS) (gd : List Str) (head : Str),
      fs.readToString (gd ++ [str "HEAD"]) = .ok head →
      fs2.readToString (gd ++ [str "HEAD"]) = .ok head →
      stripPre (str "ref: ") head = none →
      headResolve fs gd = headResolve fs2 gd) ∧
    (∀ (fs : FS) (gd : List Str) (head : Str),
      fs.readToString (gd ++ [str "HEAD"]) = .ok head →
      stripPre (str "ref: ") head = none →
      headResolve fs gd =
        (match byteSlice 14 head with
         | none => none
         | some s => some (.ok s))) := by
  constructor
  · intro fs fs2 gd head h1 h2 hs
    rw [headResolve_detached fs gd head h1 hs, headResolve_detached fs2 gd head h2 hs]
  · exact headResolve_detached

/-- C3 counterexample: on a `HEAD` content of fewer than 14 bytes the probe
panics (`&head_content[..14]` is out of range) instead of returning a
14-character display string as the claim states for every such `HEAD`. -/
theorem c3_counterexample :
    get_git_info c3fs [str "", str "r"] = none := by
  rfl

/-- C3 witness: the amended statement applied to the concrete filesystem. -/
theorem c3_amended_witness :
    headResolve c3fs [str "", str "r", str ".git"] =
      (match byteSlice 14 (str "abc") with
       | none => none
       | some s => some (.ok s)) :=
  c3_amended.2 c3fs [str "", str "r", str ".git"] (str "abc") (by decide) (by decide)

/-! ## Working-directory abbreviation (C10) -/

theorem splitOnChar_ne_nil (sep : Char) (s : Str) : splitOnChar sep s ≠ [] := by
  induction s with
  | nil => simp [splitOnChar]
  | cons c rest ih =>
    simp only [splitOnChar]
    split
    · simp
    · cases h : splitOnChar sep rest <;> simp

theorem not_mem_of_mem_splitOnChar {sep : Char} {s p : Str}
    (hp : p ∈ splitOnChar sep s) : sep ∉ p := by
  induction s generalizing p with
  | nil =>
    simp only [splitOnChar, List.mem_singleton] at hp
    subst hp
    simp
  | cons c rest ih =>
    simp only [splitOnChar] at hp
    by_cases hc : c = sep
    · rw [if_pos hc] at hp
      rcases List.mem_cons.mp hp with hp | hp
      · subst hp; simp
      · exact ih hp
    · rw [if_neg hc] at hp
      cases h : splitOnChar sep rest with
      | nil => exact absurd h (splitOnChar_ne_nil sep rest)
      | cons q qs =>
        rw [h] at hp
        rcases List.mem_cons.mp hp with hp | hp
        · subst hp
          intro hmem
          rcases List.mem_cons.mp hmem with h1 | h1
          · exact hc h1.symm
          · have hq : q ∈ splitOnChar sep rest := by rw [h]; simp
            exact (ih hq) h1
        · have hpq : p ∈ splitOnChar sep rest := by rw [h]; simp [hp]
          exact ih hpq

theorem splitOnChar_no_sep {sep : Char} {p : Str} (h : sep ∉ p) :
    splitOnChar sep p = [p] := by
  induction p with
  | nil => rfl
  | cons c rest ih =>
    have hc : ¬(c = sep) := fun e => h (by simp [e])
    have hrest : sep ∉ rest := fun m => h (List.mem_cons_of_mem _ m)
    simp only [splitOnChar, if_neg hc, ih hrest]

theorem splitOnChar_append_sep {sep : Char} {p : Str} (h : sep ∉ p) (t : Str) :
    splitOnChar sep (p ++ sep :: t) = p :: splitOnChar sep t := by
  induction p with
  | nil =>
    simp [splitOnChar]
  | cons c rest ih =>
    have hc : ¬(c = sep) := fun e => h (by simp [e])
    have hrest : sep ∉ rest := fun m => h (List.mem_cons_of_mem _ m)
    simp only [List.cons_append, splitOnChar, List.append_eq, if_neg hc]
    rw [ih hrest]

theorem splitOnChar_joinChar {sep : Char} {ps : List Str}
    (hne : ps ≠ []) (h : ∀ p ∈ ps, sep ∉ p) :
    splitOnChar sep (joinChar sep ps) = ps := by
  induction ps with
  | nil => exact absurd rfl hne
  | cons p rest ih =>
    cases rest with
    | nil =>
      simp only [joinChar]
      exact splitOnChar_no_sep (h p (by simp))
    | cons q qs =>
      simp only [joinChar]
      rw [splitOnChar_append_sep (h p (by simp))]
      rw [ih (by simp) (fun x hx => h x (List.mem_cons_of_mem _ hx))]

/-- C10: in the abbreviated working directory, splitting the output of the
abbreviation step on `/` gives exactly the input components, each mapped by:
a component that differs from the last component, is non-empty and is not
`~` is reduced to its first character; the last component, empty components,
`~`, and earlier components textually equal to the last are kept in full. -/
theorem c10_abbreviation :
    ∀ s : Str,
      splitOnChar '/' (shortenCwd s) =
        (splitOnChar '/' s).map (fun dir =>
          if dir ≠ ((splitOnChar '/' s).getLast?.getD []) ∧ dir ≠ [] ∧ dir ≠ str "~"
          then [dir.headD '?'] else dir) := by
  intro s
  unfold shortenCwd
  apply splitOnChar_joinChar
  · intro hmap
    exact splitOnChar_ne_nil '/' s (List.map_eq_nil.mp hmap)
  · intro p hp
    rcases List.mem_map.mp hp with ⟨dir, hdir, rfl⟩
    by_cases hcond : dir ≠ ((splitOnChar '/' s).getLast?.getD []) ∧ dir ≠ [] ∧ dir ≠ str "~"
    · rw [if_pos hcond]
      intro hmem
      rcases dir with _ | ⟨c0, dr⟩
      · exact hcond.2.1 rfl
      · simp only [List.headD_cons, List.mem_singleton] at hmem
        have hns := not_mem_of_mem_splitOnChar hdir
        rw [hmem] at hns
        exact hns (by simp)
    · rw [if_neg hcond]
      exact not_mem_of_mem_splitOnChar hdir

/-! ## The assembler never aborts? (C1) -/

/-- C1 counterexample: with `PROMPT_SHELL_TYPE` absent from the environment
the program panics on the `expect` before any probe runs — the run aborts,
so "the program never aborts" is false. -/
theorem c1_counterexample : mainRun [] c1fs [str ""] = none := rfl

theorem gitCode_eval :
    Color.to_ansi (Color.Hex (str "#98BFAE")) = some (str "38;2;152;191;174") := by
  decide

theorem nixCode_eval :
    Color.to_ansi (Color.Hex (str "#E06C76")) = some (str "38;2;224;108;118") := by
  decide

/-- Rendering of the `bold`-then-`colored` shape every probe produces. -/
theorem to_ansi_boldColored (t : Str) (col : Color) (code : Str) (esc : Str → Str)
    (hc : col.to_ansi = some code) :
    (DecoratedString.Colored (DecoratedString.Bold (DecoratedString.Default t)) col).to_ansi
      esc =
      some (esc (str "\x1b[" ++ code ++ str "m") ++
        (esc (str "\x1b[1m") ++ t ++ esc (str "\x1b[22m")) ++ esc (str "\x1b[39m")) := by
  simp [DecoratedString.to_ansi, hc]

theorem get_cwd_shape (e : Env) :
    ∃ t col, get_cwd e =
        DecoratedString.Colored (DecoratedString.Bold (DecoratedString.Default t)) col ∧
      (col = Color.Red ∨ col = Color.White) := by
  unfold get_cwd
  cases h : lookupVar e (str "PWD") with
  | none => exact ⟨str "!!!", Color.Red, rfl, Or.inl rfl⟩
  | some pwd => exact ⟨_, Color.White, rfl, Or.inr rfl⟩

theorem get_git_ok_shape {fs : FS} {cwd : List Str} {d : DecoratedString}
    (h : get_git_info fs cwd = some (.ok d)) : ∃ t, d = gitDeco t := by
  unfold get_git_info at h
  cases hf : findRepo fs cwd with
  | none => rw [hf] at h; dsimp only at h; simp at h
  | some repo =>
    rw [hf] at h
    dsimp only at h
    unfold afterRepo at h
    cases hg : resolveGitDir fs repo with
    | error e2 => rw [hg] at h; dsimp only at h; simp at h
    | ok gd =>
      rw [hg] at h
      dsimp only at h
      cases hh : headResolve fs gd with
      | none => rw [hh] at h; simp [decoStep] at h
      | some r =>
        cases r with
        | error e2 => rw [hh] at h; simp [decoStep] at h
        | ok out =>
          rw [hh] at h
          simp only [decoStep, Option.some.injEq, Except.ok.injEq] at h
          exact ⟨out, h.symm⟩

theorem get_nix_ok_shape {e : Env} {d : DecoratedString}
    (h : get_nix_shell e = .ok d) :
    ∃ t, d = DecoratedString.Colored (DecoratedString.Bold (DecoratedString.Default t))
      (Color.Hex (str "#E06C76")) := by
  unfold get_nix_shell at h
  cases hd : detect_shell_type e with
  | error err => rw [hd] at h; simp at h
  | ok ty =>
    rw [hd] at h
    dsimp only at h
    exact ⟨_, (Except.ok.inj h).symm⟩

/-- `mapM` over renderables that all succeed. -/
theorem renderOks_of_all_some {st : Str} {comps : List DecoratedString}
    (h : ∀ d ∈ comps, ∃ r, d.to_ansi (escapeFor st) = some r) :
    renderOks st comps =
      some (comps.map (fun d => (d.to_ansi (escapeFor st)).getD [])) := by
  induction comps with
  | nil => rfl
  | cons d rest ih =>
    obtain ⟨r, hr⟩ := h d (by simp)
    have hrest := ih (fun x hx => h x (List.mem_cons_of_mem _ hx))
    unfold renderOks at hrest ⊢
    rw [List.mapM_cons, hr, hrest]
    simp [hr]

/-- C1 (amended): provided `PROMPT_SHELL_TYPE` is set (its absence panics the
`expect`) and the git probe itself does not panic, the run completes: the
probe results are partitioned, only the successful ones are rendered into
the output line, and standard error carries each failure's message and full
cause chain exactly when `PROMPT_DEBUG` is `1` (missing `PWD`, `IN_NIX_SHELL`
or `PATH` are non-fatal probe failures). -/
theorem c1_amended :
    ∀ (e : Env) (fs : FS) (cwd : List Str) (st : Str) (g : Except GitError DecoratedString),
      lookupVar e (str "PROMPT_SHELL_TYPE") = some st →
      get_git_info fs cwd = some g →
      ∃ out, mainRun e fs cwd = some out ∧
        out.stderrOut =
          (if lookupVar e (str "PROMPT_DEBUG") = some (str "1") then
            concatStrs (((probeResults e g).filter (fun r => ! exOk r)).map errLine)
          else []) ∧
        out.stdout =
          str " " ++
            concatStrs ((((probeResults e g).filter exOk).filterMap okVal).map
              (fun d => (d.to_ansi (escapeFor st)).getD [] ++ str " ")) ++ str "-> " := by
  intro e fs cwd st g h1 h2
  have hall : ∀ d ∈ ((probeResults e g).filter exOk).filterMap okVal,
      ∃ r, d.to_ansi (escapeFor st) = some r := by
    intro d hd
    rcases List.mem_filterMap.mp hd with ⟨res, hres, hok⟩
    have hres_ok : res = .ok d := by
      cases res with
      | ok v =>
        simp only [okVal, Option.some.injEq] at hok
        rw [hok]
      | error e2 => simp [okVal] at hok
    subst hres_ok
    have hmem := (List.mem_filter.mp hres).1
    simp only [probeResults, List.mem_cons, List.not_mem_nil, or_false] at hmem
    rcases hmem with hcwd | hgit | hnix
    · have hd2 : d = get_cwd e := Except.ok.inj hcwd
      obtain ⟨t, col, hshape, hcol⟩ := get_cwd_shape e
      rw [hd2, hshape]
      rcases hcol with h | h <;> subst h
      · exact ⟨_, to_ansi_boldColored t Color.Red (str "31") _ rfl⟩
      · exact ⟨_, to_ansi_boldColored t Color.White (str "37") _ rfl⟩
    · cases g with
      | error ge => simp [exMapErr] at hgit
      | ok dg =>
        have hd2 : d = dg := by
          simpa [exMapErr] using hgit
        subst hd2
        obtain ⟨t, ht⟩ := get_git_ok_shape h2
        rw [ht]
        unfold gitDeco
        exact ⟨_, to_ansi_boldColored t _ _ _ gitCode_eval⟩
    · cases hne : get_nix_shell e with
      | error err => rw [hne] at hnix; simp [exMapErr] at hnix
      | ok dn =>
        rw [hne] at hnix
        have hd2 : d = dn := by
          simpa [exMapErr] using hnix
        subst hd2
        obtain ⟨t, ht⟩ := get_nix_ok_shape hne
        rw [ht]
        exact ⟨_, to_ansi_boldColored t _ _ _ nixCode_eval⟩
  unfold mainRun
  rw [h1]
  dsimp only
  rw [h2]
  dsimp only
  rw [renderOks_of_all_some hall]
  dsimp only
  refine ⟨_, rfl, rfl, ?_⟩
  simp only [List.map_map]
  rfl

/-- C1 witness: on an empty filesystem with the debug flag set, the run
completes with only the always-successful cwd probe rendered and both probe
failures reported on standard error. -/
theorem c1_amended_witness :
    ∃ out, mainRun c1env c1fs [str ""] = some out ∧
      out.stderrOut =
        (if lookupVar c1env (str "PROMPT_DEBUG") = some (str "1") then
          concatStrs (((probeResults c1env (.error .NotGitRepo)).filter
            (fun r => ! exOk r)).map errLine)
        else []) ∧
      out.stdout =
        str " " ++
          concatStrs ((((probeResults c1env (.error .NotGitRepo)).filter
            exOk).filterMap okVal).map
              (fun d => (d.to_ansi (escapeFor (str "zsh"))).getD [] ++ str " ")) ++
          str "-> " :=
  c1_amended c1env c1fs [str ""] (str "zsh") (.error .NotGitRepo) (by decide) (by rfl)
